import Mathlib

/-
  Verification of the I2C master-mode driver in `src/i2c.rs` of the
  stm32f103xx-hal repository.

  The driver is embedded shallowly as a state-passing interpreter over an
  abstract hardware oracle:

  * a `World` supplies the successive values that reads of the SR1 status
    register return and the successive bytes that reads of the DR data
    register return;
  * a state `St` tracks how many SR1 reads and DR reads have been consumed,
    the contents of the caller's receive buffer, and the ordered trace of
    register accesses performed so far;
  * every `busy_wait!` loop of the source becomes `busy_wait`, a fuel-bounded
    scan of the SR1 stream that reports `Error::Bus` / `Error::Arbitration`
    exactly as the macro does (BERR checked first, then ARLO, then the
    awaited flag);
  * `write` and `write_read` transcribe the bodies of
    `impl Write::write` and `impl WriteRead::write_read` line by line.

  A completed poll is recorded as a single coalesced `pollOk`/`pollErr`
  trace event (the individual SR1 reads inside the loop are still counted
  in `sr1Count`); all control-register writes, data-register accesses and
  the explicit SR1/SR2 dummy reads appear as individual events in program
  order.
-/

namespace I2cHal

/-- I2C error kind, from `enum Error` in src/i2c.rs.  The hidden
`_Extensible` variant is never constructed by the driver and is omitted. -/
inductive Error where
  | bus
  | arbitration
  deriving DecidableEq, Repr

/-- The SR1 status bits the driver inspects: the two error flags (BERR,
ARLO) and the five progress flags it busy-waits on. -/
structure SR1 where
  berr : Bool
  arlo : Bool
  sb : Bool
  addr : Bool
  txE : Bool
  btf : Bool
  rxNe : Bool
  deriving DecidableEq, Repr

/-- Which progress flag a `busy_wait!` invocation awaits. -/
inductive Flag where
  | sb
  | addr
  | txE
  | btf
  | rxNe
  deriving DecidableEq, Repr

/-- Projection of the awaited flag out of an SR1 reading. -/
def flagSet (r : SR1) : Flag → Bool
  | .sb => r.sb
  | .addr => r.addr
  | .txE => r.txE
  | .btf => r.btf
  | .rxNe => r.rxNe

/-- One observable register access of the driver.  Control-register writes
are named after the bit the source sets or clears (`cr1.write` with the
given bit); a completed poll loop is recorded as one `pollOk`/`pollErr`
event. -/
inductive Event where
  | cr1Start
  | cr1Stop
  | cr1AckSet
  | cr1AckClear
  | cr1Pos
  | drWrite (b : Nat)
  | drRead (b : Nat)
  | sr1Read
  | sr2Read
  | pollOk (f : Flag)
  | pollErr (f : Flag) (e : Error)
  deriving DecidableEq, Repr

/-- The hardware oracle: `sr1s k` is the value the (k+1)-th read of SR1
returns, `drs k` the raw value the (k+1)-th read of DR returns (taken
mod 256, DR being an 8-bit register). -/
structure World where
  sr1s : Nat → SR1
  drs : Nat → Nat

/-- Interpreter state: SR1/DR read counters, the caller's receive buffer,
and the trace of register accesses so far. -/
structure St where
  sr1Count : Nat
  drCount : Nat
  buf : List Nat
  trace : List Event
  deriving Repr

/-- Result of running a driver operation: normal return, early return with
an `Error` (the state records everything done up to that point), or fuel
exhaustion (the unbounded source loop would still be spinning). -/
inductive Outcome where
  | ok (s : St)
  | err (e : Error) (s : St)
  | hang

/-- Sequencing: run the continuation only on normal return, exactly as the
Rust `return Err(..)` inside `busy_wait!` aborts the whole function. -/
def Outcome.andThen : Outcome → (St → Outcome) → Outcome
  | .ok s, f => f s
  | .err e s, _ => .err e s
  | .hang, _ => .hang

/-- Record one register-access event. -/
def emit (e : Event) (s : St) : St :=
  { s with trace := s.trace ++ [e] }

/-- The explicit `self.i2c.sr1.read()` used to clear ADDR in the read
phase: consumes one SR1 reading (value discarded) and records the access. -/
def sr1ReadStep (s : St) : St :=
  { s with sr1Count := s.sr1Count + 1, trace := s.trace ++ [.sr1Read] }

/-- `buffer[i] = self.i2c.dr.read().dr().bits()`: consume the next DR byte,
store it at index `i` of the buffer, and record the access. -/
def drReadInto (w : World) (i : Nat) (s : St) : St :=
  let v := w.drs s.drCount % 256
  { s with
      drCount := s.drCount + 1
      buf := s.buf.set i v
      trace := s.trace ++ [.drRead v] }

/-- The `busy_wait!($i2c, $flag)` macro (src/i2c.rs lines 49-65): loop
reading SR1; return `Error::Bus` if BERR is set, else `Error::Arbitration`
if ARLO is set, else exit the loop once the awaited flag is set.  `fuel`
bounds the number of SR1 reads; running out of fuel models the source loop
spinning forever. -/
def busy_wait (w : World) (fl : Flag) : Nat → St → Outcome
  | 0, _ => .hang
  | fuel + 1, s =>
    let r := w.sr1s s.sr1Count
    let s1 : St := { s with sr1Count := s.sr1Count + 1 }
    if r.berr then .err .bus (emit (.pollErr fl .bus) s1)
    else if r.arlo then .err .arbitration (emit (.pollErr fl .arbitration) s1)
    else if flagSet r fl then .ok (emit (.pollOk fl) s1)
    else busy_wait w fl fuel s1

/-- The data loop of `write` / `write_read` (src lines 188-195 / 230-237):
for each byte, busy-wait on TxE then write the byte to DR. -/
def send_bytes (w : World) (fuel : Nat) : List Nat → St → Outcome
  | [], s => .ok s
  | b :: rest, s =>
    (busy_wait w .txE fuel s).andThen fun s1 =>
    send_bytes w fuel rest (emit (.drWrite (b % 256)) s1)

/-- `impl Write::write` (src lines 176-204): START, await SB; DR ←
`addr << 1`, await ADDR; dummy SR2 read; the TxE/DR data loop; await BTF;
STOP; `Ok(())`. -/
def write (w : World) (fuel : Nat) (addr : Nat) (bytes : List Nat) (s : St) : Outcome :=
  (busy_wait w .sb fuel (emit .cr1Start s)).andThen fun s1 =>
  (busy_wait w .addr fuel (emit (.drWrite ((addr <<< 1) % 256)) s1)).andThen fun s2 =>
  (send_bytes w fuel bytes (emit .sr2Read s2)).andThen fun s3 =>
  (busy_wait w .btf fuel s3).andThen fun s4 =>
  .ok (emit .cr1Stop s4)

/-- The `buffer.len() > 3` drain loop of `write_read` (src lines 270-276):
for each listed buffer index, busy-wait on RxNE then read DR into that
index. -/
def drain (w : World) (fuel : Nat) : List Nat → St → Outcome
  | [], s => .ok s
  | i :: rest, s =>
    (busy_wait w .rxNe fuel s).andThen fun s1 =>
    drain w fuel rest (drReadInto w i s1)

/-- The read-address phase of `write_read` (src lines 245-253): CR1.ACK
set, START, await SB, DR ← `(addr << 1) | 1`, await ADDR. -/
def read_addr (w : World) (fuel : Nat) (addr : Nat) (s : St) : Outcome :=
  (busy_wait w .sb fuel (emit .cr1Start (emit .cr1AckSet s))).andThen fun s6 =>
  busy_wait w .addr fuel (emit (.drWrite (((addr <<< 1) % 256) ||| 1)) s6)

/-- The `match buffer.len()` ACK/POS pre-configuration of `write_read`
(src lines 255-264): length 1 clears ACK; length 2 clears ACK then sets
POS; anything else does nothing. -/
def ackCfg (s : St) : St :=
  match s.buf.length with
  | 1 => emit .cr1AckClear s
  | 2 => emit .cr1Pos (emit .cr1AckClear s)
  | _ => s

/-- Clearing ADDR in the read phase (src lines 266-268): read SR1 then
SR2. -/
def clear_addr (s : St) : St :=
  emit .sr2Read (sr1ReadStep s)

/-- The `if buffer.len() > 3` guard around the drain loop (src lines
270-276). -/
def drainIf (w : World) (fuel : Nat) (s : St) : Outcome :=
  if 3 < s.buf.length then drain w fuel (List.range' 3 (s.buf.length - 3)) s
  else .ok s

/-- The final `match buffer.len()` of `write_read` (src lines 278-316).
Note that, as in the source, the `3` arm reads DR only twice (into
indices 0 and 1) and the `_` arm (length 0 or length > 3) does nothing:
no poll, no STOP, no DR read. -/
def readTail (w : World) (fuel : Nat) (s : St) : Outcome :=
  match s.buf.length with
  | 1 =>
    (busy_wait w .rxNe fuel s).andThen fun t1 =>
    .ok (drReadInto w 0 (emit .cr1Stop t1))
  | 2 =>
    (busy_wait w .rxNe fuel s).andThen fun t1 =>
    (busy_wait w .btf fuel t1).andThen fun t2 =>
    .ok (drReadInto w 1 (drReadInto w 0 (emit .cr1Stop t2)))
  | 3 =>
    (busy_wait w .rxNe fuel s).andThen fun t1 =>
    (busy_wait w .btf fuel t1).andThen fun t2 =>
    (busy_wait w .rxNe fuel (emit .cr1AckClear t2)).andThen fun t3 =>
    (busy_wait w .btf fuel t3).andThen fun t4 =>
    .ok (drReadInto w 1 (drReadInto w 0 (emit .cr1Stop t4)))
  | _ => .ok s

/-- `impl WriteRead::write_read` (src lines 210-319).  Its write phase
(lines 219-243) duplicates the body of `write` verbatim in the source, so
it is expressed by calling `write`.  Then: the read-address phase, the
length-dependent ACK/POS pre-configuration, the SR1/SR2 dummy reads, the
drain loop when `buffer.len() > 3`, and the length-matched tail. -/
def write_read (w : World) (fuel : Nat) (addr : Nat) (bytes : List Nat) (s : St) : Outcome :=
  (write w fuel addr bytes s).andThen fun s5 =>
  (read_addr w fuel addr s5).andThen fun s7 =>
  (drainIf w fuel (clear_addr (ackCfg s7))).andThen fun s10 =>
  readTail w fuel s10

/-- The pair of trace events produced for one byte of the data loop:
the TxE poll followed by the DR write of the byte. -/
def txEvents : List Nat → List Event
  | [] => []
  | b :: rest => .pollOk .txE :: .drWrite (b % 256) :: txEvents rest

/-- The full event trace of a successful `write addr bytes` call. -/
def writeTrace (addr : Nat) (bytes : List Nat) : List Event :=
  [.cr1Start, .pollOk .sb, .drWrite ((addr <<< 1) % 256), .pollOk .addr, .sr2Read]
    ++ txEvents bytes ++ [.pollOk .btf, .cr1Stop]

/-- The event trace of a successful read-address phase. -/
def readAddrEvents (addr : Nat) : List Event :=
  [.cr1AckSet, .cr1Start, .pollOk .sb, .drWrite (((addr <<< 1) % 256) ||| 1), .pollOk .addr]

/-- The bytes the bus delivers: `chunk w d n` is the list of the n DR
values starting at stream position d (each reduced mod 256), in the order
the driver reads them. -/
def chunk (w : World) : Nat → Nat → List Nat
  | _, 0 => []
  | d, n + 1 => w.drs d % 256 :: chunk w (d + 1) n

/-- The trace events of the drain loop reading the given byte values:
one RxNE poll then one DR read per byte. -/
def drainEvents : List Nat → List Event
  | [] => []
  | v :: vs => .pollOk .rxNe :: .drRead v :: drainEvents vs

/-- Overwrite a contiguous run of list entries starting at index `i` with
the given values (out-of-range writes are dropped, as `List.set` drops
them). -/
def overwriteAt : List Nat → Nat → List Nat → List Nat
  | l, _, [] => l
  | l, i, v :: vs => overwriteAt (l.set i v) (i + 1) vs

/-- The ACK/POS pre-configuration events as a function of the buffer
length, matching the arms of `ackCfg`. -/
def ackCfgEvents : Nat → List Event
  | 1 => [.cr1AckClear]
  | 2 => [.cr1AckClear, .cr1Pos]
  | _ => []

/-- The error `e` returned by a poll agrees with the SR1 reading the poll
terminated on (the reading at index `s.sr1Count - 1`): `Bus` is returned
exactly on BERR, and `Arbitration` only when ARLO is set and BERR is not. -/
def errAt (w : World) (e : Error) (s : St) : Prop :=
  (e = .bus ∧ (w.sr1s (s.sr1Count - 1)).berr = true) ∨
    (e = .arbitration ∧ (w.sr1s (s.sr1Count - 1)).berr = false ∧
      (w.sr1s (s.sr1Count - 1)).arlo = true)

/-- Every START event in the trace is followed, strictly later in the
trace, by a STOP event. -/
def startsClosed (t : List Event) : Prop :=
  ∀ i, t.get? i = some .cr1Start → ∃ j, i < j ∧ t.get? j = some .cr1Stop

/-- Boolean (bounded) check of `startsClosed` over a concrete trace. -/
def startsClosedB (t : List Event) : Bool :=
  (List.range t.length).all fun i =>
    !(t.get? i == some Event.cr1Start) ||
      (List.range t.length).any fun j =>
        decide (i < j) && (t.get? j == some Event.cr1Stop)

/-- The two peripheral instances handled by the `hal!` macro invocation. -/
inductive Inst where
  | i2c1
  | i2c2
  deriving DecidableEq, Repr

/-- The pins that appear in the `SclPin` / `SdaPin` impls. -/
inductive Pin where
  | pa9
  | pa10
  | pb6
  | pb7
  | pb8
  | pb9
  | pb10
  | pb11
  deriving DecidableEq, Repr

/-- The closed `SclPin` relation: PB6/PB8 for I2C1, PB10 for I2C2 (src
lines 33-36). -/
def isSclPin : Inst → Pin → Bool
  | .i2c1, .pb6 => true
  | .i2c1, .pb8 => true
  | .i2c2, .pb10 => true
  | _, _ => false

/-- The closed `SdaPin` relation: PB7/PB9 for I2C1, PB11 for I2C2 (src
lines 38-41). -/
def isSdaPin : Inst → Pin → Bool
  | .i2c1, .pb7 => true
  | .i2c1, .pb9 => true
  | .i2c2, .pb11 => true
  | _, _ => false

/-- A register-level effect of the constructor: the APB1 clock-enable bit,
the APB1 reset bit set then cleared, and the peripheral's CR1 PE bit. -/
inductive RccOp where
  | enrSetEnable (i : Inst)
  | rstrSetReset (i : Inst)
  | rstrClearReset (i : Inst)
  | cr1WritePe (i : Inst)
  deriving DecidableEq, Repr

/-- The constructed driver value: the owned peripheral instance and its
pin pair, as in `I2c { i2c, pins }`. -/
structure Controller where
  inst : Inst
  scl : Pin
  sda : Pin
  deriving DecidableEq, Repr

/-- The `I2c::i2cX` constructor generated by the `hal!` macro (src lines
72-165), parameterized by the instance: enable the instance's APB1 clock
bit, set then clear its APB1 reset bit, then write CR1 with PE set, and
return the controller.  The `freq` and `clocks` arguments are accepted but
unused (every use in the source is commented out), and no failure path
exists. -/
def i2c_init (inst : Inst) (scl sda : Pin) (freq : Nat) (pclk1 : Nat) :
    Controller × List RccOp :=
  (⟨inst, scl, sda⟩,
   [.enrSetEnable inst, .rstrSetReset inst, .rstrClearReset inst, .cr1WritePe inst])

/-- An SR1 reading with every progress flag available and no error flag:
each poll succeeds on its first read. -/
def allFlags : SR1 :=
  ⟨false, false, true, true, true, true, true⟩

/-- An SR1 reading showing a bus error only. -/
def berrOnly : SR1 :=
  ⟨true, false, false, false, false, false, false⟩

/-- An SR1 reading showing arbitration loss only. -/
def arloOnly : SR1 :=
  ⟨false, true, false, false, false, false, false⟩

/-- An SR1 reading showing both error flags at once. -/
def bothErrs : SR1 :=
  ⟨true, true, true, true, true, true, true⟩

/-- A fully responsive, error-free bus; the k-th DR read returns 17 + k. -/
def wGood : World :=
  ⟨fun _ => allFlags, fun k => 17 + k⟩

/-- A bus that behaves until its 8th SR1 read, which reports a bus error. -/
def wLateErr : World :=
  ⟨fun k => if k < 7 then allFlags else berrOnly, fun k => 17 + k⟩

/-- A bus whose very first SR1 read reports arbitration loss. -/
def wArlo : World :=
  ⟨fun _ => arloOnly, fun k => 17 + k⟩

/-- A bus whose every SR1 read reports both error flags. -/
def wBoth : World :=
  ⟨fun _ => bothErrs, fun k => 17 + k⟩

/-- Fresh interpreter state around a given receive buffer. -/
def st0 (buf : List Nat) : St :=
  ⟨0, 0, buf, []⟩

@[simp] theorem emit_buf (e : Event) (s : St) : (emit e s).buf = s.buf := rfl

@[simp] theorem emit_drCount (e : Event) (s : St) : (emit e s).drCount = s.drCount := rfl

@[simp] theorem emit_sr1Count (e : Event) (s : St) : (emit e s).sr1Count = s.sr1Count := rfl

@[simp] theorem emit_trace (e : Event) (s : St) : (emit e s).trace = s.trace ++ [e] := rfl

@[simp] theorem sr1ReadStep_buf (s : St) : (sr1ReadStep s).buf = s.buf := rfl

@[simp] theorem sr1ReadStep_drCount (s : St) : (sr1ReadStep s).drCount = s.drCount := rfl

@[simp] theorem sr1ReadStep_trace (s : St) : (sr1ReadStep s).trace = s.trace ++ [.sr1Read] := rfl

@[simp] theorem drReadInto_buf (w : World) (i : Nat) (s : St) :
    (drReadInto w i s).buf = s.buf.set i (w.drs s.drCount % 256) := rfl

@[simp] theorem drReadInto_drCount (w : World) (i : Nat) (s : St) :
    (drReadInto w i s).drCount = s.drCount + 1 := rfl

@[simp] theorem drReadInto_trace (w : World) (i : Nat) (s : St) :
    (drReadInto w i s).trace = s.trace ++ [.drRead (w.drs s.drCount % 256)] := rfl

@[simp] theorem clear_addr_buf (s : St) : (clear_addr s).buf = s.buf := rfl

@[simp] theorem clear_addr_drCount (s : St) : (clear_addr s).drCount = s.drCount := rfl

@[simp] theorem clear_addr_trace (s : St) :
    (clear_addr s).trace = s.trace ++ [.sr1Read, .sr2Read] := by
  simp [clear_addr]

theorem ackCfg_buf (s : St) : (ackCfg s).buf = s.buf := by
  unfold ackCfg
  rcases h : s.buf.length with _ | _ | _ | n <;> rfl

theorem ackCfg_drCount (s : St) : (ackCfg s).drCount = s.drCount := by
  unfold ackCfg
  rcases h : s.buf.length with _ | _ | _ | n <;> rfl

theorem ackCfg_trace (s : St) :
    (ackCfg s).trace = s.trace ++ ackCfgEvents s.buf.length := by
  unfold ackCfg
  rcases h : s.buf.length with _ | _ | _ | n <;> simp [ackCfgEvents]

theorem andThen_ok {o : Outcome} {f : St → Outcome} {s' : St}
    (h : o.andThen f = .ok s') : ∃ s1, o = .ok s1 ∧ f s1 = .ok s' := by
  cases o with
  | ok s1 => exact ⟨s1, rfl, h⟩
  | err e s1 => simp [Outcome.andThen] at h
  | hang => simp [Outcome.andThen] at h

theorem andThen_err {o : Outcome} {f : St → Outcome} {e : Error} {s' : St}
    (h : o.andThen f = .err e s') :
    o = .err e s' ∨ ∃ s1, o = .ok s1 ∧ f s1 = .err e s' := by
  cases o with
  | ok s1 => exact Or.inr ⟨s1, rfl, h⟩
  | err e1 s1 => exact Or.inl h
  | hang => simp [Outcome.andThen] at h

theorem busy_wait_ok {w : World} {fl : Flag} {fuel : Nat} {s s' : St}
    (h : busy_wait w fl fuel s = .ok s') :
    s'.buf = s.buf ∧ s'.drCount = s.drCount ∧ s'.trace = s.trace ++ [.pollOk fl] := by
  revert h
  induction fuel generalizing s with
  | zero =>
    intro h
    simp [busy_wait] at h
  | succ n ih =>
    intro h
    simp only [busy_wait] at h
    split at h
    · simp at h
    · split at h
      · simp at h
      · split at h
        · injection h with h
          subst h
          exact ⟨rfl, rfl, rfl⟩
        · have hx := ih h
          exact hx

theorem busy_wait_err {w : World} {fl : Flag} {fuel : Nat} {s s' : St} {e : Error}
    (h : busy_wait w fl fuel s = .err e s') :
    s'.buf = s.buf ∧ s'.drCount = s.drCount ∧
      s'.trace = s.trace ++ [.pollErr fl e] ∧ errAt w e s' := by
  revert h
  induction fuel generalizing s with
  | zero =>
    intro h
    simp [busy_wait] at h
  | succ n ih =>
    intro h
    simp only [busy_wait] at h
    split at h
    next hb =>
      injection h with h1 h2
      subst h1
      subst h2
      exact ⟨rfl, rfl, rfl, Or.inl ⟨rfl, by simpa using hb⟩⟩
    next hb =>
      split at h
      next ha =>
        injection h with h1 h2
        subst h1
        subst h2
        refine ⟨rfl, rfl, rfl, Or.inr ⟨rfl, ?_, ?_⟩⟩
        · simpa using hb
        · simpa using ha
      next ha =>
        split at h
        · simp at h
        · have hx := ih h
          exact hx

theorem busy_wait_berr {w : World} {fl : Flag} {k : Nat} {s : St}
    (hb : (w.sr1s s.sr1Count).berr = true) :
    busy_wait w fl (k + 1) s =
      .err .bus (emit (.pollErr fl .bus) { s with sr1Count := s.sr1Count + 1 }) := by
  simp only [busy_wait]
  rw [if_pos hb]

theorem busy_wait_arlo {w : World} {fl : Flag} {k : Nat} {s : St}
    (hb : (w.sr1s s.sr1Count).berr = false)
    (ha : (w.sr1s s.sr1Count).arlo = true) :
    busy_wait w fl (k + 1) s =
      .err .arbitration
        (emit (.pollErr fl .arbitration) { s with sr1Count := s.sr1Count + 1 }) := by
  simp only [busy_wait]
  rw [if_neg (by simp [hb]), if_pos ha]

theorem send_bytes_ok {w : World} {fuel : Nat} {bytes : List Nat} {s s' : St}
    (h : send_bytes w fuel bytes s = .ok s') :
    s'.buf = s.buf ∧ s'.drCount = s.drCount ∧ s'.trace = s.trace ++ txEvents bytes := by
  revert h
  induction bytes generalizing s with
  | nil =>
    intro h
    simp only [send_bytes] at h
    injection h with h
    subst h
    simp [txEvents]
  | cons b rest ih =>
    intro h
    simp only [send_bytes] at h
    obtain ⟨s1, h1, h⟩ := andThen_ok h
    obtain ⟨hb1, hd1, ht1⟩ := busy_wait_ok h1
    obtain ⟨hb2, hd2, ht2⟩ := ih h
    refine ⟨by simp [hb2, hb1], by simp [hd2, hd1], ?_⟩
    rw [ht2]
    simp [ht1, txEvents]

theorem send_bytes_err {w : World} {fuel : Nat} {bytes : List Nat} {s s' : St} {e : Error}
    (h : send_bytes w fuel bytes s = .err e s') :
    s'.buf = s.buf ∧ s'.drCount = s.drCount ∧ errAt w e s' ∧
      ∃ pre fl, s'.trace = s.trace ++ pre ++ [.pollErr fl e] := by
  revert h
  induction bytes generalizing s with
  | nil =>
    intro h
    simp [send_bytes] at h
  | cons b rest ih =>
    intro h
    simp only [send_bytes] at h
    rcases andThen_err h with h | ⟨s1, h1, h⟩
    · obtain ⟨hb, hd, ht, hea⟩ := busy_wait_err h
      exact ⟨hb, hd, hea, [], .txE, by simpa using ht⟩
    · obtain ⟨hb1, hd1, ht1⟩ := busy_wait_ok h1
      obtain ⟨hb, hd, hea, pre, fl, ht⟩ := ih h
      refine ⟨by simp [hb, hb1], by simp [hd, hd1], hea,
        .pollOk .txE :: .drWrite (b % 256) :: pre, fl, ?_⟩
      rw [ht]
      simp [ht1]

theorem write_ok {w : World} {fuel addr : Nat} {bytes : List Nat} {s s' : St}
    (h : write w fuel addr bytes s = .ok s') :
    s'.buf = s.buf ∧ s'.drCount = s.drCount ∧
      s'.trace = s.trace ++ writeTrace addr bytes := by
  simp only [write] at h
  obtain ⟨s1, h1, h⟩ := andThen_ok h
  obtain ⟨hb1, hd1, ht1⟩ := busy_wait_ok h1
  obtain ⟨s2, h2, h⟩ := andThen_ok h
  obtain ⟨hb2, hd2, ht2⟩ := busy_wait_ok h2
  obtain ⟨s3, h3, h⟩ := andThen_ok h
  obtain ⟨hb3, hd3, ht3⟩ := send_bytes_ok h3
  obtain ⟨s4, h4, h⟩ := andThen_ok h
  obtain ⟨hb4, hd4, ht4⟩ := busy_wait_ok h4
  injection h with h
  subst h
  refine ⟨by simp [hb4, hb3, hb2, hb1], by simp [hd4, hd3, hd2, hd1], ?_⟩
  simp [ht4, ht3, ht2, ht1, writeTrace]

theorem write_err {w : World} {fuel addr : Nat} {bytes : List Nat} {s s' : St} {e : Error}
    (h : write w fuel addr bytes s = .err e s') :
    s'.buf = s.buf ∧ s'.drCount = s.drCount ∧ errAt w e s' ∧
      ∃ pre fl, s'.trace = s.trace ++ pre ++ [.pollErr fl e] := by
  simp only [write] at h
  rcases andThen_err h with h | ⟨s1, h1, h⟩
  · obtain ⟨hb, hd, ht, hea⟩ := busy_wait_err h
    exact ⟨hb, hd, hea, [.cr1Start], .sb, by simpa using ht⟩
  obtain ⟨hb1, hd1, ht1⟩ := busy_wait_ok h1
  rcases andThen_err h with h | ⟨s2, h2, h⟩
  · obtain ⟨hb, hd, ht, hea⟩ := busy_wait_err h
    refine ⟨by simp [hb, hb1], by simp [hd, hd1], hea,
      [.cr1Start, .pollOk .sb, .drWrite ((addr <<< 1) % 256)], .addr, ?_⟩
    rw [ht]
    simp [ht1]
  obtain ⟨hb2, hd2, ht2⟩ := busy_wait_ok h2
  rcases andThen_err h with h | ⟨s3, h3, h⟩
  · obtain ⟨hb, hd, hea, pre, fl, ht⟩ := send_bytes_err h
    refine ⟨by simp [hb, hb2, hb1], by simp [hd, hd2, hd1], hea,
      [.cr1Start, .pollOk .sb, .drWrite ((addr <<< 1) % 256), .pollOk .addr, .sr2Read]
        ++ pre, fl, ?_⟩
    rw [ht]
    simp [ht2, ht1]
  obtain ⟨hb3, hd3, ht3⟩ := send_bytes_ok h3
  rcases andThen_err h with h | ⟨s4, h4, h⟩
  · obtain ⟨hb, hd, ht, hea⟩ := busy_wait_err h
    refine ⟨by simp [hb, hb3, hb2, hb1], by simp [hd, hd3, hd2, hd1], hea,
      [.cr1Start, .pollOk .sb, .drWrite ((addr <<< 1) % 256), .pollOk .addr, .sr2Read]
        ++ txEvents bytes, .btf, ?_⟩
    rw [ht]
    simp [ht3, ht2, ht1]
  · simp at h

theorem chunk_length (w : World) (d n : Nat) : (chunk w d n).length = n := by
  induction n generalizing d with
  | zero => rfl
  | succ n ih => simp [chunk, ih]

theorem overwriteAt_length (vs : List Nat) :
    ∀ (l : List Nat) (i : Nat), (overwriteAt l i vs).length = l.length := by
  induction vs with
  | nil => intro l i; rfl
  | cons v vs ih =>
    intro l i
    simp only [overwriteAt]
    rw [ih]
    exact List.length_set l i v

theorem overwriteAt_getElem?_lt (vs : List Nat) :
    ∀ (l : List Nat) (i j : Nat), j < i → (overwriteAt l i vs)[j]? = l[j]? := by
  induction vs with
  | nil => intro l i j _; rfl
  | cons v vs ih =>
    intro l i j hj
    simp only [overwriteAt]
    rw [ih (l.set i v) (i + 1) j (by omega)]
    exact List.getElem?_set_ne (by omega)

theorem overwriteAt_getElem?_ge (vs : List Nat) :
    ∀ (l : List Nat) (i j : Nat), i + vs.length ≤ j →
      (overwriteAt l i vs)[j]? = l[j]? := by
  induction vs with
  | nil => intro l i j _; rfl
  | cons v vs ih =>
    intro l i j hj
    simp only [overwriteAt]
    rw [ih (l.set i v) (i + 1) j (by simp at hj; omega)]
    exact List.getElem?_set_ne (by simp at hj; omega)

theorem read_addr_ok {w : World} {fuel addr : Nat} {s s' : St}
    (h : read_addr w fuel addr s = .ok s') :
    s'.buf = s.buf ∧ s'.drCount = s.drCount ∧
      s'.trace = s.trace ++ readAddrEvents addr := by
  simp only [read_addr] at h
  obtain ⟨s6, h6, h⟩ := andThen_ok h
  obtain ⟨hb6, hd6, ht6⟩ := busy_wait_ok h6
  obtain ⟨hb7, hd7, ht7⟩ := busy_wait_ok h
  exact ⟨by simp [hb7, hb6], by simp [hd7, hd6], by simp [ht7, ht6, readAddrEvents]⟩

theorem read_addr_err {w : World} {fuel addr : Nat} {s s' : St} {e : Error}
    (h : read_addr w fuel addr s = .err e s') :
    s'.buf = s.buf ∧ s'.drCount = s.drCount ∧ errAt w e s' ∧
      ∃ pre fl, s'.trace = s.trace ++ pre ++ [.pollErr fl e] := by
  simp only [read_addr] at h
  rcases andThen_err h with h | ⟨s6, h6, h⟩
  · obtain ⟨hb, hd, ht, hea⟩ := busy_wait_err h
    exact ⟨hb, hd, hea, [.cr1AckSet, .cr1Start], .sb, by simpa using ht⟩
  · obtain ⟨hb6, hd6, ht6⟩ := busy_wait_ok h6
    obtain ⟨hb, hd, ht, hea⟩ := busy_wait_err h
    refine ⟨by simp [hb, hb6], by simp [hd, hd6], hea,
      [.cr1AckSet, .cr1Start, .pollOk .sb, .drWrite (((addr <<< 1) % 256) ||| 1)],
      .addr, ?_⟩
    rw [ht]
    simp [ht6]

theorem drain_ok {w : World} {fuel : Nat} :
    ∀ (n : Nat) {i : Nat} {s s' : St},
      drain w fuel (List.range' i n) s = .ok s' →
      s'.buf = overwriteAt s.buf i (chunk w s.drCount n) ∧
        s'.drCount = s.drCount + n ∧
        s'.trace = s.trace ++ drainEvents (chunk w s.drCount n) := by
  intro n
  induction n with
  | zero =>
    intro i s s' h
    simp only [List.range', drain] at h
    injection h with h
    subst h
    simp [chunk, overwriteAt, drainEvents]
  | succ n ih =>
    intro i s s' h
    rw [List.range'_succ] at h
    simp only [drain] at h
    obtain ⟨s1, h1, h⟩ := andThen_ok h
    obtain ⟨hb1, hd1, ht1⟩ := busy_wait_ok h1
    obtain ⟨hb, hd, ht⟩ := ih h
    refine ⟨?_, ?_, ?_⟩
    · rw [hb]
      simp [hb1, hd1, chunk, overwriteAt]
    · simp only [drReadInto_drCount] at hd
      rw [hd1] at hd
      omega
    · rw [ht]
      simp [ht1, hd1, chunk, drainEvents]

theorem drain_err {w : World} {fuel : Nat} :
    ∀ (n : Nat) {i : Nat} {s s' : St} {e : Error},
      drain w fuel (List.range' i n) s = .err e s' →
      ∃ m, m < n ∧ s'.buf = overwriteAt s.buf i (chunk w s.drCount m) ∧
        s'.drCount = s.drCount + m ∧ errAt w e s' ∧
        s'.trace = s.trace ++ drainEvents (chunk w s.drCount m) ++ [.pollErr .rxNe e] := by
  intro n
  induction n with
  | zero =>
    intro i s s' e h
    simp [List.range', drain] at h
  | succ n ih =>
    intro i s s' e h
    rw [List.range'_succ] at h
    simp only [drain] at h
    rcases andThen_err h with h | ⟨s1, h1, h⟩
    · obtain ⟨hb, hd, ht, hea⟩ := busy_wait_err h
      exact ⟨0, by omega, by simpa [chunk, overwriteAt] using hb,
        by simpa [chunk] using hd, hea, by simpa [chunk, drainEvents] using ht⟩
    · obtain ⟨hb1, hd1, ht1⟩ := busy_wait_ok h1
      obtain ⟨m, hm, hb, hd, hea, ht⟩ := ih h
      refine ⟨m + 1, by omega, ?_, ?_, hea, ?_⟩
      · rw [hb]
        simp [hb1, hd1, chunk, overwriteAt]
      · simp only [drReadInto_drCount] at hd
        rw [hd1] at hd
        omega
      · rw [ht]
        simp [ht1, hd1, chunk, drainEvents]

theorem drainIf_not_gt {w : World} {fuel : Nat} {s : St} (h : ¬ 3 < s.buf.length) :
    drainIf w fuel s = .ok s := by
  unfold drainIf
  rw [if_neg h]

theorem drainIf_gt {w : World} {fuel : Nat} {s : St} (h : 3 < s.buf.length) :
    drainIf w fuel s = drain w fuel (List.range' 3 (s.buf.length - 3)) s := by
  unfold drainIf
  rw [if_pos h]

theorem drainIf_ok_ex {w : World} {fuel : Nat} {t s10 : St}
    (h : drainIf w fuel t = .ok s10) :
    ∃ m, s10.buf = overwriteAt t.buf 3 (chunk w t.drCount m) ∧
      s10.drCount = t.drCount + m ∧ ∃ tr, s10.trace = t.trace ++ tr := by
  unfold drainIf at h
  split at h
  · obtain ⟨hb, hd, ht⟩ := drain_ok _ h
    exact ⟨t.buf.length - 3, hb, hd, _, ht⟩
  · injection h with h
    subst h
    exact ⟨0, by simp [chunk, overwriteAt], by simp, [], by simp⟩

theorem drainIf_err {w : World} {fuel : Nat} {t s' : St} {e : Error}
    (h : drainIf w fuel t = .err e s') :
    ∃ m, s'.buf = overwriteAt t.buf 3 (chunk w t.drCount m) ∧
      s'.drCount = t.drCount + m ∧ errAt w e s' ∧
      ∃ pre fl, s'.trace = t.trace ++ pre ++ [.pollErr fl e] := by
  unfold drainIf at h
  split at h
  · obtain ⟨m, _, hb, hd, hea, ht⟩ := drain_err _ h
    exact ⟨m, hb, hd, hea, drainEvents (chunk w t.drCount m), .rxNe, by simpa using ht⟩
  · simp at h

theorem readTail_eq_one {w : World} {fuel : Nat} {s : St} (hl : s.buf.length = 1) :
    readTail w fuel s =
      ((busy_wait w .rxNe fuel s).andThen fun t1 =>
        .ok (drReadInto w 0 (emit .cr1Stop t1))) := by
  unfold readTail
  rw [hl]

theorem readTail_eq_two {w : World} {fuel : Nat} {s : St} (hl : s.buf.length = 2) :
    readTail w fuel s =
      ((busy_wait w .rxNe fuel s).andThen fun t1 =>
        (busy_wait w .btf fuel t1).andThen fun t2 =>
        .ok (drReadInto w 1 (drReadInto w 0 (emit .cr1Stop t2)))) := by
  unfold readTail
  rw [hl]

theorem readTail_eq_three {w : World} {fuel : Nat} {s : St} (hl : s.buf.length = 3) :
    readTail w fuel s =
      ((busy_wait w .rxNe fuel s).andThen fun t1 =>
        (busy_wait w .btf fuel t1).andThen fun t2 =>
        (busy_wait w .rxNe fuel (emit .cr1AckClear t2)).andThen fun t3 =>
        (busy_wait w .btf fuel t3).andThen fun t4 =>
        .ok (drReadInto w 1 (drReadInto w 0 (emit .cr1Stop t4)))) := by
  unfold readTail
  rw [hl]

theorem readTail_eq_other {w : World} {fuel : Nat} {s : St}
    (h1 : s.buf.length ≠ 1) (h2 : s.buf.length ≠ 2) (h3 : s.buf.length ≠ 3) :
    readTail w fuel s = .ok s := by
  unfold readTail
  rcases hl : s.buf.length with _ | _ | _ | _ | n
  · rfl
  · omega
  · omega
  · omega
  · rfl

theorem readTail_ok_one {w : World} {fuel : Nat} {s s' : St} (hl : s.buf.length = 1)
    (h : readTail w fuel s = .ok s') :
    s'.buf = s.buf.set 0 (w.drs s.drCount % 256) ∧
      s'.drCount = s.drCount + 1 ∧
      s'.trace = s.trace ++
        [.pollOk .rxNe, .cr1Stop, .drRead (w.drs s.drCount % 256)] := by
  rw [readTail_eq_one hl] at h
  obtain ⟨t1, h1, h⟩ := andThen_ok h
  obtain ⟨hb1, hd1, ht1⟩ := busy_wait_ok h1
  injection h with h
  subst h
  exact ⟨by simp [hb1, hd1], by simp [hd1], by simp [ht1, hd1]⟩

theorem readTail_ok_two {w : World} {fuel : Nat} {s s' : St} (hl : s.buf.length = 2)
    (h : readTail w fuel s = .ok s') :
    s'.buf = (s.buf.set 0 (w.drs s.drCount % 256)).set 1 (w.drs (s.drCount + 1) % 256) ∧
      s'.drCount = s.drCount + 2 ∧
      s'.trace = s.trace ++
        [.pollOk .rxNe, .pollOk .btf, .cr1Stop,
         .drRead (w.drs s.drCount % 256), .drRead (w.drs (s.drCount + 1) % 256)] := by
  rw [readTail_eq_two hl] at h
  obtain ⟨t1, h1, h⟩ := andThen_ok h
  obtain ⟨hb1, hd1, ht1⟩ := busy_wait_ok h1
  obtain ⟨t2, h2, h⟩ := andThen_ok h
  obtain ⟨hb2, hd2, ht2⟩ := busy_wait_ok h2
  injection h with h
  subst h
  refine ⟨by simp [hb2, hb1, hd2, hd1], by simp [hd2, hd1], ?_⟩
  simp [ht2, ht1, hd2, hd1]

theorem readTail_ok_three {w : World} {fuel : Nat} {s s' : St} (hl : s.buf.length = 3)
    (h : readTail w fuel s = .ok s') :
    s'.buf = (s.buf.set 0 (w.drs s.drCount % 256)).set 1 (w.drs (s.drCount + 1) % 256) ∧
      s'.drCount = s.drCount + 2 ∧
      s'.trace = s.trace ++
        [.pollOk .rxNe, .pollOk .btf, .cr1AckClear, .pollOk .rxNe, .pollOk .btf,
         .cr1Stop, .drRead (w.drs s.drCount % 256),
         .drRead (w.drs (s.drCount + 1) % 256)] := by
  rw [readTail_eq_three hl] at h
  obtain ⟨t1, h1, h⟩ := andThen_ok h
  obtain ⟨hb1, hd1, ht1⟩ := busy_wait_ok h1
  obtain ⟨t2, h2, h⟩ := andThen_ok h
  obtain ⟨hb2, hd2, ht2⟩ := busy_wait_ok h2
  obtain ⟨t3, h3, h⟩ := andThen_ok h
  obtain ⟨hb3, hd3, ht3⟩ := busy_wait_ok h3
  obtain ⟨t4, h4, h⟩ := andThen_ok h
  obtain ⟨hb4, hd4, ht4⟩ := busy_wait_ok h4
  injection h with h
  subst h
  refine ⟨by simp [hb4, hb3, hb2, hb1, hd4, hd3, hd2, hd1], by simp [hd4, hd3, hd2, hd1], ?_⟩
  simp [ht4, ht3, ht2, ht1, hd4, hd3, hd2, hd1]

theorem readTail_err {w : World} {fuel : Nat} {s s' : St} {e : Error}
    (h : readTail w fuel s = .err e s') :
    s'.buf = s.buf ∧ s'.drCount = s.drCount ∧ errAt w e s' ∧
      ∃ pre fl, s'.trace = s.trace ++ pre ++ [.pollErr fl e] := by
  by_cases h1 : s.buf.length = 1
  · rw [readTail_eq_one h1] at h
    rcases andThen_err h with h | ⟨t1, ht1', h⟩
    · obtain ⟨hb, hd, ht, hea⟩ := busy_wait_err h
      exact ⟨hb, hd, hea, [], .rxNe, by simpa using ht⟩
    · simp at h
  by_cases h2 : s.buf.length = 2
  · rw [readTail_eq_two h2] at h
    rcases andThen_err h with h | ⟨t1, ht1', h⟩
    · obtain ⟨hb, hd, ht, hea⟩ := busy_wait_err h
      exact ⟨hb, hd, hea, [], .rxNe, by simpa using ht⟩
    · obtain ⟨hb1, hd1, ht1⟩ := busy_wait_ok ht1'
      rcases andThen_err h with h | ⟨t2, ht2', h⟩
      · obtain ⟨hb, hd, ht, hea⟩ := busy_wait_err h
        refine ⟨by simp [hb, hb1], by simp [hd, hd1], hea, [.pollOk .rxNe], .btf, ?_⟩
        rw [ht]
        simp [ht1]
      · simp at h
  by_cases h3 : s.buf.length = 3
  · rw [readTail_eq_three h3] at h
    rcases andThen_err h with h | ⟨t1, ht1', h⟩
    · obtain ⟨hb, hd, ht, hea⟩ := busy_wait_err h
      exact ⟨hb, hd, hea, [], .rxNe, by simpa using ht⟩
    · obtain ⟨hb1, hd1, ht1⟩ := busy_wait_ok ht1'
      rcases andThen_err h with h | ⟨t2, ht2', h⟩
      · obtain ⟨hb, hd, ht, hea⟩ := busy_wait_err h
        refine ⟨by simp [hb, hb1], by simp [hd, hd1], hea, [.pollOk .rxNe], .btf, ?_⟩
        rw [ht]
        simp [ht1]
      · obtain ⟨hb2, hd2, ht2⟩ := busy_wait_ok ht2'
        rcases andThen_err h with h | ⟨t3, ht3', h⟩
        · obtain ⟨hb, hd, ht, hea⟩ := busy_wait_err h
          refine ⟨by simp [hb, hb2, hb1], by simp [hd, hd2, hd1], hea,
            [.pollOk .rxNe, .pollOk .btf, .cr1AckClear], .rxNe, ?_⟩
          rw [ht]
          simp [ht2, ht1]
        · obtain ⟨hb3, hd3, ht3⟩ := busy_wait_ok ht3'
          rcases andThen_err h with h | ⟨t4, ht4', h⟩
          · obtain ⟨hb, hd, ht, hea⟩ := busy_wait_err h
            refine ⟨by simp [hb, hb3, hb2, hb1], by simp [hd, hd3, hd2, hd1], hea,
              [.pollOk .rxNe, .pollOk .btf, .cr1AckClear, .pollOk .rxNe], .btf, ?_⟩
            rw [ht]
            simp [ht3, ht2, ht1]
          · simp at h
  · rw [readTail_eq_other h1 h2 h3] at h
    simp at h

theorem write_read_ok_split {w : World} {fuel addr : Nat} {bytes : List Nat} {s s' : St}
    (h : write_read w fuel addr bytes s = .ok s') :
    ∃ s7 s10, s7.buf = s.buf ∧ s7.drCount = s.drCount ∧
      s7.trace = s.trace ++ writeTrace addr bytes ++ readAddrEvents addr ∧
      drainIf w fuel (clear_addr (ackCfg s7)) = .ok s10 ∧
      readTail w fuel s10 = .ok s' := by
  simp only [write_read] at h
  obtain ⟨s5, h5, h⟩ := andThen_ok h
  obtain ⟨hb5, hd5, ht5⟩ := write_ok h5
  obtain ⟨s7, h7, h⟩ := andThen_ok h
  obtain ⟨hb7, hd7, ht7⟩ := read_addr_ok h7
  obtain ⟨s10, h10, h⟩ := andThen_ok h
  exact ⟨s7, s10, by simp [hb7, hb5], by simp [hd7, hd5],
    by rw [ht7, ht5, List.append_assoc], h10, h⟩

theorem ackCfg_other {s : St} (h1 : s.buf.length ≠ 1) (h2 : s.buf.length ≠ 2) :
    ackCfg s = s := by
  unfold ackCfg
  rcases hl : s.buf.length with _ | _ | _ | n
  · rfl
  · omega
  · omega
  · rfl

theorem write_read_ok_len1 {w : World} {fuel addr : Nat} {bytes : List Nat} {s s' : St}
    (hl : s.buf.length = 1) (h : write_read w fuel addr bytes s = .ok s') :
    s'.buf = s.buf.set 0 (w.drs s.drCount % 256) ∧
      s'.drCount = s.drCount + 1 ∧
      s'.trace = s.trace ++ writeTrace addr bytes ++ readAddrEvents addr ++
        [.cr1AckClear, .sr1Read, .sr2Read, .pollOk .rxNe, .cr1Stop,
         .drRead (w.drs s.drCount % 256)] := by
  obtain ⟨s7, s10, hb7, hd7, ht7, h10, hT⟩ := write_read_ok_split h
  have hl7 : s7.buf.length = 1 := by rw [hb7, hl]
  have hca : (clear_addr (ackCfg s7)).buf = s.buf := by
    simp [ackCfg_buf, hb7]
  have hcd : (clear_addr (ackCfg s7)).drCount = s.drCount := by
    simp [ackCfg_drCount, hd7]
  rw [drainIf_not_gt (by rw [hca, hl]; omega)] at h10
  injection h10 with h10
  subst h10
  obtain ⟨hbT, hdT, htT⟩ := readTail_ok_one (by rw [hca, hl]) hT
  refine ⟨?_, ?_, ?_⟩
  · rw [hbT, hca, hcd]
  · rw [hdT, hcd]
  · rw [htT, hcd]
    simp [ackCfg_trace, hl7, ackCfgEvents, ht7]

theorem write_read_ok_len2 {w : World} {fuel addr : Nat} {bytes : List Nat} {s s' : St}
    (hl : s.buf.length = 2) (h : write_read w fuel addr bytes s = .ok s') :
    s'.buf = (s.buf.set 0 (w.drs s.drCount % 256)).set 1 (w.drs (s.drCount + 1) % 256) ∧
      s'.drCount = s.drCount + 2 ∧
      s'.trace = s.trace ++ writeTrace addr bytes ++ readAddrEvents addr ++
        [.cr1AckClear, .cr1Pos, .sr1Read, .sr2Read, .pollOk .rxNe, .pollOk .btf,
         .cr1Stop, .drRead (w.drs s.drCount % 256),
         .drRead (w.drs (s.drCount + 1) % 256)] := by
  obtain ⟨s7, s10, hb7, hd7, ht7, h10, hT⟩ := write_read_ok_split h
  have hl7 : s7.buf.length = 2 := by rw [hb7, hl]
  have hca : (clear_addr (ackCfg s7)).buf = s.buf := by
    simp [ackCfg_buf, hb7]
  have hcd : (clear_addr (ackCfg s7)).drCount = s.drCount := by
    simp [ackCfg_drCount, hd7]
  rw [drainIf_not_gt (by rw [hca, hl]; omega)] at h10
  injection h10 with h10
  subst h10
  obtain ⟨hbT, hdT, htT⟩ := readTail_ok_two (by rw [hca, hl]) hT
  refine ⟨?_, ?_, ?_⟩
  · rw [hbT, hca, hcd]
  · rw [hdT, hcd]
  · rw [htT, hcd]
    simp [ackCfg_trace, hl7, ackCfgEvents, ht7]

theorem write_read_ok_len3 {w : World} {fuel addr : Nat} {bytes : List Nat} {s s' : St}
    (hl : s.buf.length = 3) (h : write_read w fuel addr bytes s = .ok s') :
    s'.buf = (s.buf.set 0 (w.drs s.drCount % 256)).set 1 (w.drs (s.drCount + 1) % 256) ∧
      s'.drCount = s.drCount + 2 ∧
      s'.trace = s.trace ++ writeTrace addr bytes ++ readAddrEvents addr ++
        [.sr1Read, .sr2Read, .pollOk .rxNe, .pollOk .btf, .cr1AckClear,
         .pollOk .rxNe, .pollOk .btf, .cr1Stop,
         .drRead (w.drs s.drCount % 256), .drRead (w.drs (s.drCount + 1) % 256)] := by
  obtain ⟨s7, s10, hb7, hd7, ht7, h10, hT⟩ := write_read_ok_split h
  have hl7 : s7.buf.length = 3 := by rw [hb7, hl]
  have hak : ackCfg s7 = s7 := ackCfg_other (by omega) (by omega)
  have hca : (clear_addr (ackCfg s7)).buf = s.buf := by
    simp [hak, hb7]
  have hcd : (clear_addr (ackCfg s7)).drCount = s.drCount := by
    simp [hak, hd7]
  rw [drainIf_not_gt (by rw [hca, hl]; omega)] at h10
  injection h10 with h10
  subst h10
  obtain ⟨hbT, hdT, htT⟩ := readTail_ok_three (by rw [hca, hl]) hT
  refine ⟨?_, ?_, ?_⟩
  · rw [hbT, hca, hcd]
  · rw [hdT, hcd]
  · rw [htT, hcd]
    simp [hak, ht7]

theorem write_read_ok_gt3 {w : World} {fuel addr : Nat} {bytes : List Nat} {s s' : St}
    (hl : 3 < s.buf.length) (h : write_read w fuel addr bytes s = .ok s') :
    s'.buf = overwriteAt s.buf 3 (chunk w s.drCount (s.buf.length - 3)) ∧
      s'.drCount = s.drCount + (s.buf.length - 3) ∧
      s'.trace = s.trace ++ writeTrace addr bytes ++ readAddrEvents addr ++
        ([.sr1Read, .sr2Read] ++ drainEvents (chunk w s.drCount (s.buf.length - 3))) := by
  obtain ⟨s7, s10, hb7, hd7, ht7, h10, hT⟩ := write_read_ok_split h
  have hl7 : s7.buf.length = s.buf.length := by rw [hb7]
  have hak : ackCfg s7 = s7 := ackCfg_other (by omega) (by omega)
  have hca : (clear_addr (ackCfg s7)).buf = s.buf := by
    simp [hak, hb7]
  have hcd : (clear_addr (ackCfg s7)).drCount = s.drCount := by
    simp [hak, hd7]
  rw [drainIf_gt (by rw [hca]; omega)] at h10
  obtain ⟨hb10, hd10, ht10⟩ := drain_ok _ h10
  have hl10 : s10.buf.length = s.buf.length := by
    rw [hb10, overwriteAt_length, hca]
  rw [readTail_eq_other (by omega) (by omega) (by omega)] at hT
  injection hT with hT
  subst hT
  refine ⟨?_, ?_, ?_⟩
  · rw [hb10, hca, hcd]
  · rw [hd10, hcd]
    congr 1
    rw [hca]
  · rw [ht10, hcd]
    simp [hak, ht7, hca, hb7]

theorem write_read_err {w : World} {fuel addr : Nat} {bytes : List Nat} {s s' : St}
    {e : Error} (h : write_read w fuel addr bytes s = .err e s') :
    ∃ m, s'.buf = overwriteAt s.buf 3 (chunk w s.drCount m) ∧
      s'.drCount = s.drCount + m ∧ errAt w e s' ∧
      ∃ pre fl, s'.trace = s.trace ++ pre ++ [.pollErr fl e] := by
  simp only [write_read] at h
  rcases andThen_err h with h | ⟨s5, h5, h⟩
  · obtain ⟨hb, hd, hea, pre, fl, ht⟩ := write_err h
    exact ⟨0, by simp [hb, chunk, overwriteAt], by simp [hd], hea, pre, fl, ht⟩
  obtain ⟨hb5, hd5, ht5⟩ := write_ok h5
  rcases andThen_err h with h | ⟨s7, h7, h⟩
  · obtain ⟨hb, hd, hea, pre, fl, ht⟩ := read_addr_err h
    refine ⟨0, by simp [hb, hb5, chunk, overwriteAt], by simp [hd, hd5], hea,
      writeTrace addr bytes ++ pre, fl, ?_⟩
    rw [ht]
    simp [ht5]
  obtain ⟨hb7, hd7, ht7⟩ := read_addr_ok h7
  rcases andThen_err h with h | ⟨s10, h10, h⟩
  · obtain ⟨m, hb, hd, hea, pre, fl, ht⟩ := drainIf_err h
    have hca : (clear_addr (ackCfg s7)).buf = s.buf := by
      simp [ackCfg_buf, hb7, hb5]
    have hcd : (clear_addr (ackCfg s7)).drCount = s.drCount := by
      simp [ackCfg_drCount, hd7, hd5]
    refine ⟨m, ?_, ?_, hea,
      writeTrace addr bytes ++ readAddrEvents addr ++
        ackCfgEvents s7.buf.length ++ [.sr1Read, .sr2Read] ++ pre, fl, ?_⟩
    · rw [hb, hca, hcd]
    · rw [hd, hcd]
    · rw [ht, clear_addr_trace, ackCfg_trace, ht7, ht5]
      simp
  · obtain ⟨m, hb10, hd10, tr, ht10⟩ := drainIf_ok_ex h10
    obtain ⟨hb, hd, hea, pre, fl, ht⟩ := readTail_err h
    have hca : (clear_addr (ackCfg s7)).buf = s.buf := by
      simp [ackCfg_buf, hb7, hb5]
    have hcd : (clear_addr (ackCfg s7)).drCount = s.drCount := by
      simp [ackCfg_drCount, hd7, hd5]
    refine ⟨m, ?_, ?_, hea,
      writeTrace addr bytes ++ readAddrEvents addr ++
        ackCfgEvents s7.buf.length ++ [.sr1Read, .sr2Read] ++ tr ++ pre, fl, ?_⟩
    · rw [hb, hb10, hca, hcd]
    · rw [hd, hd10, hcd]
    · rw [ht, ht10, clear_addr_trace, ackCfg_trace, ht7, ht5]
      simp

theorem startsClosed_of_split (C D : List Event) {t : List Event}
    (hT : t = C ++ .cr1Stop :: D) (hD : Event.cr1Start ∉ D) : startsClosed t := by
  subst hT
  intro i hi
  by_cases hiC : i < C.length
  · refine ⟨C.length, hiC, ?_⟩
    rw [List.get?_append_right (Nat.le_refl _)]
    simp
  · have hge : C.length ≤ i := Nat.le_of_not_lt hiC
    rw [List.get?_append_right hge] at hi
    rcases Nat.eq_or_lt_of_le hge with heq | hlt
    · rw [← heq, Nat.sub_self] at hi
      simp at hi
    · obtain ⟨k, hk⟩ : ∃ k, i - C.length = k + 1 := ⟨i - C.length - 1, by omega⟩
      rw [hk, List.get?_cons_succ] at hi
      exact absurd (List.get?_mem hi) hD

theorem startsClosed_B_true {t : List Event} (h : startsClosed t) :
    startsClosedB t = true := by
  unfold startsClosedB
  rw [List.all_eq_true]
  intro i hi
  by_cases hs : t.get? i = some Event.cr1Start
  · obtain ⟨j, hij, hjs⟩ := h i hs
    have hjlen : j < t.length := by
      by_contra hc
      rw [List.get?_eq_none.mpr (by omega)] at hjs
      simp at hjs
    rw [Bool.or_eq_true]
    right
    rw [List.any_eq_true]
    exact ⟨j, List.mem_range.mpr hjlen, by simp [hij, ← List.get?_eq_getElem?, hjs]⟩
  · rw [Bool.or_eq_true]
    left
    simp [← List.get?_eq_getElem?, hs]

theorem readTail_ok_mono {w : World} {fuel : Nat} {s s' : St}
    (h : readTail w fuel s = .ok s') : ∃ t, s'.trace = s.trace ++ t := by
  by_cases h1 : s.buf.length = 1
  · obtain ⟨_, _, ht⟩ := readTail_ok_one h1 h
    exact ⟨_, ht⟩
  by_cases h2 : s.buf.length = 2
  · obtain ⟨_, _, ht⟩ := readTail_ok_two h2 h
    exact ⟨_, ht⟩
  by_cases h3 : s.buf.length = 3
  · obtain ⟨_, _, ht⟩ := readTail_ok_three h3 h
    exact ⟨_, ht⟩
  · rw [readTail_eq_other h1 h2 h3] at h
    injection h with h
    subst h
    exact ⟨[], by simp⟩

/-- Claim C1 (refuting evaluation): a `write_read` with a 3-byte buffer on a
fully responsive, error-free bus returns `Ok(())` yet performs only two DR
reads, so `buffer[2]` keeps its prior content `7` instead of a received
byte — the buffer is NOT fully populated on success. -/
theorem c1_len3_ok_leaves_third_byte_unwritten :
    ∃ s', write_read wGood 5 80 [] (st0 [7, 7, 7]) = .ok s' ∧
      s'.buf = [17, 18, 7] ∧ s'.drCount = 2 ∧ s'.buf[2]? = some 7 := by
  refine ⟨_, rfl, ?_, ?_, ?_⟩ <;> rfl

/-- Claim C2: a combined `write_read` of payload `[0x10]` to address `0x50`
reading back 2 bytes, whenever it returns `Ok(())` (that is, no error flag
was seen and every awaited flag eventually set), produces exactly the
claimed ordered register-access sequence — START, DR←0xA0, SR2 read,
DR←0x10, STOP, ACK set, START, DR←0xA1, ACK clear, POS set, SR1 read,
SR2 read, STOP, DR read twice into buffer[0] then buffer[1] — with the
SB/ADDR/TxE/BTF/RxNE polls interleaved at the positions the code polls
them, and no other register writes. -/
theorem c2_round_trip_trace {w : World} {fuel : Nat} {s s' : St}
    (hbuf : s.buf.length = 2) (hdr : s.drCount = 0) (htr : s.trace = [])
    (h : write_read w fuel 80 [16] s = .ok s') :
    s'.trace =
      [.cr1Start, .pollOk .sb, .drWrite 160, .pollOk .addr, .sr2Read,
       .pollOk .txE, .drWrite 16, .pollOk .btf, .cr1Stop,
       .cr1AckSet, .cr1Start, .pollOk .sb, .drWrite 161, .pollOk .addr,
       .cr1AckClear, .cr1Pos, .sr1Read, .sr2Read,
       .pollOk .rxNe, .pollOk .btf, .cr1Stop,
       .drRead (w.drs 0 % 256), .drRead (w.drs 1 % 256)] ∧
      s'.buf = [w.drs 0 % 256, w.drs 1 % 256] := by
  obtain ⟨hb, hd, ht⟩ := write_read_ok_len2 hbuf h
  constructor
  · rw [ht, htr, hdr]
    have h160 : (80 <<< 1) % 256 = 160 := rfl
    have h161 : ((80 <<< 1) % 256) ||| 1 = 161 := rfl
    simp [writeTrace, txEvents, readAddrEvents, h160, h161]
  · obtain ⟨x, y, hxy⟩ := List.length_eq_two.mp hbuf
    rw [hb, hxy, hdr]
    rfl

/-- Witness for C2 at a concrete responsive world: the round trip succeeds
and delivers the first two bus bytes 17 and 18. -/
theorem c2_round_trip_trace_witness :
    ∃ s', write_read wGood 5 80 [16] (st0 [0, 0]) = .ok s' ∧
      s'.trace =
        [.cr1Start, .pollOk .sb, .drWrite 160, .pollOk .addr, .sr2Read,
         .pollOk .txE, .drWrite 16, .pollOk .btf, .cr1Stop,
         .cr1AckSet, .cr1Start, .pollOk .sb, .drWrite 161, .pollOk .addr,
         .cr1AckClear, .cr1Pos, .sr1Read, .sr2Read,
         .pollOk .rxNe, .pollOk .btf, .cr1Stop,
         .drRead 17, .drRead 18] ∧
      s'.buf = [17, 18] := by
  refine ⟨_, rfl, ?_⟩
  have hx := @c2_round_trip_trace wGood 5 (st0 [0, 0]) _ rfl rfl rfl rfl
  exact hx

/-- Claim C3 (counterexample): for a 7-byte `write_read` on a responsive
bus the call succeeds, the drain loop fills indices 3..6 with the four
received bytes, and then NO length-3 tail runs: indices 0..2 keep their
prior value 9, only the write-phase STOP ever happens (one STOP in the
whole trace), no ACK-clear is written, and the trace simply ends at the
drain's last DR read. -/
theorem c3_len7_tail_not_executed_cex :
    ∃ s', write_read wGood 9 80 [] (st0 [9, 9, 9, 9, 9, 9, 9]) = .ok s' ∧
      s'.buf = [9, 9, 9, 17, 18, 19, 20] ∧
      s'.trace.count .cr1Stop = 1 ∧
      s'.trace.count .cr1AckClear = 0 ∧
      s'.trace.getLast? = some (.drRead 20) := by
  refine ⟨_, rfl, ?_, ?_, ?_, ?_⟩ <;> rfl

/-- Claim C3 (amended): for requested length > 3, after the address phase
the drain loop reads one byte per RxNE poll into the buffer from index 3
through the last index (consuming ALL remaining bytes, so indices 0..2 are
left unread, not the final three), and afterwards the default arm of the
final length match performs no action at all — no further poll, no
ACK-clear, no STOP, no DR read: the trace ends with the drain events. -/
theorem c3_drain_then_no_tail {w : World} {fuel addr : Nat} {bytes : List Nat}
    {s s' : St} (hl : 3 < s.buf.length)
    (h : write_read w fuel addr bytes s = .ok s') :
    s'.buf = overwriteAt s.buf 3 (chunk w s.drCount (s.buf.length - 3)) ∧
      (∀ j, j < 3 → s'.buf[j]? = s.buf[j]?) ∧
      s'.trace = s.trace ++ writeTrace addr bytes ++ readAddrEvents addr ++
        ([.sr1Read, .sr2Read] ++ drainEvents (chunk w s.drCount (s.buf.length - 3))) := by
  obtain ⟨hb, hd, ht⟩ := write_read_ok_gt3 hl h
  exact ⟨hb, fun j hj => by rw [hb]; exact overwriteAt_getElem?_lt _ _ _ _ hj, ht⟩

/-- Witness for the amended C3 at length 7 on a responsive bus. -/
theorem c3_drain_then_no_tail_witness :
    ∃ s', write_read wGood 9 80 [] (st0 [9, 9, 9, 9, 9, 9, 9]) = .ok s' ∧
      s'.buf = overwriteAt (st0 [9, 9, 9, 9, 9, 9, 9]).buf 3 (chunk wGood 0 4) ∧
      ∀ j, j < 3 → s'.buf[j]? = some 9 := by
  have hx := @c3_drain_then_no_tail wGood 9 80 [] (st0 [9, 9, 9, 9, 9, 9, 9]) _
    (by decide) rfl
  refine ⟨_, rfl, hx.1, ?_⟩
  intro j hj
  rw [hx.2.1 j hj]
  rcases j with _ | _ | _ | j
  · rfl
  · rfl
  · rfl
  · omega

/-- Claim C4 (counterexample): `write_read` with an EMPTY buffer returns
`Ok(())` after issuing two STARTs but only one STOP: the second START (the
read-phase repeated start) is never followed by a STOP, so the call is not
a self-contained START…STOP bracket. -/
theorem c4_len0_second_start_unclosed_cex :
    ∃ s', write_read wGood 5 80 [] (st0 []) = .ok s' ∧
      s'.trace.count .cr1Start = 2 ∧ s'.trace.count .cr1Stop = 1 ∧
      ¬ startsClosed s'.trace := by
  refine ⟨_, rfl, ?_, ?_, ?_⟩
  · rfl
  · rfl
  · exact fun hsc => absurd (startsClosed_B_true hsc) (by decide)

/-- Claim C4 (amended): every START issued by a successful `write` is
followed by a STOP before the call returns, and the same holds for a
successful `write_read` whenever the buffer length is 1, 2 or 3; for
length 0 or length > 3 the second START is left unclosed (see the
counterexample). -/
theorem c4_start_stop_bracket :
    (∀ (w : World) (fuel addr : Nat) (bytes : List Nat) (s s' : St),
        s.trace = [] → write w fuel addr bytes s = .ok s' →
        startsClosed s'.trace) ∧
    (∀ (w : World) (fuel addr : Nat) (bytes : List Nat) (s s' : St),
        s.trace = [] →
        (s.buf.length = 1 ∨ s.buf.length = 2 ∨ s.buf.length = 3) →
        write_read w fuel addr bytes s = .ok s' → startsClosed s'.trace) := by
  constructor
  · intro w fuel addr bytes s s' htr h
    obtain ⟨_, _, ht⟩ := write_ok h
    rw [ht, htr]
    exact startsClosed_of_split
      ([.cr1Start, .pollOk .sb, .drWrite ((addr <<< 1) % 256), .pollOk .addr, .sr2Read]
        ++ txEvents bytes ++ [.pollOk .btf]) []
      (by simp [writeTrace]) (by simp)
  · intro w fuel addr bytes s s' htr hl h
    rcases hl with hl | hl | hl
    · obtain ⟨_, _, ht⟩ := write_read_ok_len1 hl h
      rw [ht, htr]
      exact startsClosed_of_split
        (writeTrace addr bytes ++ readAddrEvents addr ++
          [.cr1AckClear, .sr1Read, .sr2Read, .pollOk .rxNe])
        [.drRead (w.drs s.drCount % 256)]
        (by simp) (by simp)
    · obtain ⟨_, _, ht⟩ := write_read_ok_len2 hl h
      rw [ht, htr]
      exact startsClosed_of_split
        (writeTrace addr bytes ++ readAddrEvents addr ++
          [.cr1AckClear, .cr1Pos, .sr1Read, .sr2Read, .pollOk .rxNe, .pollOk .btf])
        [.drRead (w.drs s.drCount % 256), .drRead (w.drs (s.drCount + 1) % 256)]
        (by simp) (by simp)
    · obtain ⟨_, _, ht⟩ := write_read_ok_len3 hl h
      rw [ht, htr]
      exact startsClosed_of_split
        (writeTrace addr bytes ++ readAddrEvents addr ++
          [.sr1Read, .sr2Read, .pollOk .rxNe, .pollOk .btf, .cr1AckClear,
           .pollOk .rxNe, .pollOk .btf])
        [.drRead (w.drs s.drCount % 256), .drRead (w.drs (s.drCount + 1) % 256)]
        (by simp) (by simp)

/-- Witness for the amended C4: a concrete 1-byte `write_read` succeeds
with every START followed by a STOP. -/
theorem c4_start_stop_bracket_witness :
    ∃ s', write_read wGood 5 80 [16] (st0 [0]) = .ok s' ∧ startsClosed s'.trace := by
  refine ⟨_, rfl, ?_⟩
  exact c4_start_stop_bracket.2 wGood 5 80 [16] (st0 [0]) _ rfl (Or.inl rfl) rfl

/-- Claim C5: at every polling point of `write` and `write_read`, a poll
reading with the bus-error flag set returns `Error::Bus` at once, and one
with the arbitration-loss flag set (the bus-error flag being clear — when
both are set BERR wins, see C9) returns `Error::Arbitration` at once; when
either operation returns an error its trace ends exactly at the failing
poll, so no register write (in particular no STOP) follows the poll that
observed the error, and the returned error always agrees with the flags of
the SR1 reading that poll terminated on; in particular arbitration loss at
the very first poll of `write` yields `Error::Arbitration` with no
data-register write at all. -/
theorem c5_error_immediate :
    (∀ (w : World) (fl : Flag) (k : Nat) (s : St),
        (w.sr1s s.sr1Count).berr = true →
        busy_wait w fl (k + 1) s =
          .err .bus (emit (.pollErr fl .bus) { s with sr1Count := s.sr1Count + 1 })) ∧
    (∀ (w : World) (fl : Flag) (k : Nat) (s : St),
        (w.sr1s s.sr1Count).berr = false → (w.sr1s s.sr1Count).arlo = true →
        busy_wait w fl (k + 1) s =
          .err .arbitration
            (emit (.pollErr fl .arbitration) { s with sr1Count := s.sr1Count + 1 })) ∧
    (∀ (w : World) (fuel addr : Nat) (bytes : List Nat) (s s' : St) (e : Error),
        write w fuel addr bytes s = .err e s' →
        errAt w e s' ∧ ∃ pre fl, s'.trace = s.trace ++ pre ++ [.pollErr fl e]) ∧
    (∀ (w : World) (fuel addr : Nat) (bytes : List Nat) (s s' : St) (e : Error),
        write_read w fuel addr bytes s = .err e s' →
        errAt w e s' ∧ ∃ pre fl, s'.trace = s.trace ++ pre ++ [.pollErr fl e]) ∧
    (∀ (w : World) (k addr : Nat) (bytes : List Nat) (s : St),
        s.sr1Count = 0 → s.trace = [] →
        (w.sr1s 0).berr = false → (w.sr1s 0).arlo = true →
        ∃ s', write w (k + 1) addr bytes s = .err .arbitration s' ∧
          ∀ b, Event.drWrite b ∉ s'.trace) := by
  refine ⟨?_, ?_, ?_, ?_, ?_⟩
  · intro w fl k s hb
    exact busy_wait_berr hb
  · intro w fl k s hb ha
    exact busy_wait_arlo hb ha
  · intro w fuel addr bytes s s' e h
    obtain ⟨_, _, hea, pre, fl, ht⟩ := write_err h
    exact ⟨hea, pre, fl, ht⟩
  · intro w fuel addr bytes s s' e h
    obtain ⟨m, _, _, hea, pre, fl, ht⟩ := write_read_err h
    exact ⟨hea, pre, fl, ht⟩
  · intro w k addr bytes s h0 htr hb ha
    have hbw := @busy_wait_arlo w .sb k (emit .cr1Start s)
      (by simpa [h0] using hb) (by simpa [h0] using ha)
    refine ⟨emit (.pollErr .sb .arbitration)
      { emit .cr1Start s with sr1Count := (emit .cr1Start s).sr1Count + 1 }, ?_, ?_⟩
    · simp only [write]
      rw [hbw]
      rfl
    · intro b hmem
      simp [emit, htr] at hmem

/-- Witness for C5: arbitration loss reported at the very first SR1 read
makes a concrete `write` return `Error::Arbitration` with no DR write. -/
theorem c5_error_immediate_witness :
    ∃ s', write wArlo 1 80 [16] (st0 []) = .err .arbitration s' ∧
      ∀ b, Event.drWrite b ∉ s'.trace :=
  c5_error_immediate.2.2.2.2 wArlo 0 80 [16] (st0 []) rfl rfl rfl rfl

/-- Claim C6: whenever `write_read` returns an error, the buffer is only
written in part: there is a list `vs` of the bytes read so far — in
the order the data register delivered them — occupying the contiguous
indices starting at 3, while every index below 3 and every index from
`3 + vs.length` on still holds its prior content. -/
theorem c6_buffer_on_error {w : World} {fuel addr : Nat} {bytes : List Nat}
    {s s' : St} {e : Error} (h : write_read w fuel addr bytes s = .err e s') :
    ∃ vs, vs = chunk w s.drCount vs.length ∧
      s'.buf = overwriteAt s.buf 3 vs ∧
      (∀ j, j < 3 → s'.buf[j]? = s.buf[j]?) ∧
      (∀ j, 3 + vs.length ≤ j → s'.buf[j]? = s.buf[j]?) := by
  obtain ⟨m, hb, hd, _, _⟩ := write_read_err h
  refine ⟨chunk w s.drCount m, by rw [chunk_length], hb, ?_, ?_⟩
  · intro j hj
    rw [hb]
    exact overwriteAt_getElem?_lt _ _ _ _ hj
  · intro j hj
    rw [hb]
    exact overwriteAt_getElem?_ge _ _ _ _ hj

/-- Witness for C6: a bus error in the middle of the drain loop of a
5-byte read aborts the call with one byte landed at index 3 and all other
indices untouched. -/
theorem c6_buffer_on_error_witness :
    ∃ s', write_read wLateErr 9 80 [] (st0 [9, 9, 9, 9, 9]) = .err .bus s' ∧
      ∃ vs, vs = chunk wLateErr 0 vs.length ∧
        s'.buf = overwriteAt (st0 [9, 9, 9, 9, 9]).buf 3 vs ∧
        (∀ j, j < 3 → s'.buf[j]? = (st0 [9, 9, 9, 9, 9]).buf[j]?) ∧
        (∀ j, 3 + vs.length ≤ j → s'.buf[j]? = (st0 [9, 9, 9, 9, 9]).buf[j]?) := by
  refine ⟨_, rfl, ?_⟩
  exact @c6_buffer_on_error wLateErr 9 80 [] (st0 [9, 9, 9, 9, 9]) _ .bus rfl

/-- Claim C7: `write(addr, [])` under error-free polling issues exactly
START, the SB poll, the address byte `addr << 1` (write direction), the
ADDR poll, the dummy SR2 read, the BTF poll and STOP — no data-phase DR
write at all — and returns `Ok(())`. -/
theorem c7_empty_write_trace {w : World} {fuel addr : Nat} {s s' : St}
    (htr : s.trace = []) (h : write w fuel addr [] s = .ok s') :
    s'.trace = [.cr1Start, .pollOk .sb, .drWrite ((addr <<< 1) % 256), .pollOk .addr,
      .sr2Read, .pollOk .btf, .cr1Stop] ∧
      s'.buf = s.buf ∧ s'.drCount = s.drCount := by
  obtain ⟨hb, hd, ht⟩ := write_ok h
  refine ⟨?_, hb, hd⟩
  rw [ht, htr]
  simp [writeTrace, txEvents]

/-- Witness for C7: the concrete zero-length write to address 0x50 on a
responsive bus succeeds with exactly that seven-event trace. -/
theorem c7_empty_write_trace_witness :
    ∃ s', write wGood 2 80 [] (st0 []) = .ok s' ∧
      s'.trace = [.cr1Start, .pollOk .sb, .drWrite 160, .pollOk .addr,
        .sr2Read, .pollOk .btf, .cr1Stop] ∧
      s'.buf = [] ∧ s'.drCount = 0 := by
  refine ⟨_, rfl, ?_⟩
  have hx := @c7_empty_write_trace wGood 2 80 (st0 []) _ rfl rfl
  exact hx

/-- Claim C8: the `hal!`-generated constructor performs, for any target
frequency and any clock information, exactly the same four register
effects — APB1 clock-enable bit set, APB1 reset bit set then cleared, then
CR1 written with the peripheral-enable bit — and always returns the
controller wrapping the peripheral and pins (no failure path exists) once
the pin capability constraints hold. -/
theorem c8_constructor_effects (inst : Inst) (scl sda : Pin) (f c f' c' : Nat)
    (_hscl : isSclPin inst scl = true) (_hsda : isSdaPin inst sda = true) :
    i2c_init inst scl sda f c = i2c_init inst scl sda f' c' ∧
      (i2c_init inst scl sda f c).2 =
        [.enrSetEnable inst, .rstrSetReset inst, .rstrClearReset inst,
         .cr1WritePe inst] ∧
      (i2c_init inst scl sda f c).1 = ⟨inst, scl, sda⟩ :=
  ⟨rfl, rfl, rfl⟩

/-- Witness for C8 at I2C1 with PB6/PB7 and two very different
frequency/clock arguments. -/
theorem c8_constructor_effects_witness :
    i2c_init .i2c1 .pb6 .pb7 100000 8000000 = i2c_init .i2c1 .pb6 .pb7 400000 36000000 ∧
      (i2c_init .i2c1 .pb6 .pb7 100000 8000000).2 =
        [.enrSetEnable .i2c1, .rstrSetReset .i2c1, .rstrClearReset .i2c1,
         .cr1WritePe .i2c1] ∧
      (i2c_init .i2c1 .pb6 .pb7 100000 8000000).1 = ⟨.i2c1, .pb6, .pb7⟩ :=
  c8_constructor_effects .i2c1 .pb6 .pb7 100000 8000000 400000 36000000 rfl rfl

/-- Claim C9: the bus-error flag takes precedence over arbitration loss at
every polling point: a poll whose SR1 reading has both BERR and ARLO set
returns `Error::Bus` (the polling primitive checks BERR first), whenever
`write` or `write_read` errors at a reading with BERR set the returned
error is `Error::Bus`, and both operations started against a bus showing
both flags return `Error::Bus`. -/
theorem c9_bus_precedence :
    (∀ (w : World) (fl : Flag) (k : Nat) (s : St),
        (w.sr1s s.sr1Count).berr = true → (w.sr1s s.sr1Count).arlo = true →
        busy_wait w fl (k + 1) s =
          .err .bus (emit (.pollErr fl .bus) { s with sr1Count := s.sr1Count + 1 })) ∧
    (∀ (w : World) (fuel addr : Nat) (bytes : List Nat) (s s' : St) (e : Error),
        write w fuel addr bytes s = .err e s' →
        (w.sr1s (s'.sr1Count - 1)).berr = true → e = .bus) ∧
    (∀ (w : World) (fuel addr : Nat) (bytes : List Nat) (s s' : St) (e : Error),
        write_read w fuel addr bytes s = .err e s' →
        (w.sr1s (s'.sr1Count - 1)).berr = true → e = .bus) ∧
    (∀ (w : World) (k addr : Nat) (bytes : List Nat) (s : St),
        s.sr1Count = 0 → (w.sr1s 0).berr = true → (w.sr1s 0).arlo = true →
        ∃ s', write w (k + 1) addr bytes s = .err .bus s') ∧
    (∀ (w : World) (k addr : Nat) (bytes : List Nat) (s : St),
        s.sr1Count = 0 → (w.sr1s 0).berr = true → (w.sr1s 0).arlo = true →
        ∃ s', write_read w (k + 1) addr bytes s = .err .bus s') := by
  refine ⟨?_, ?_, ?_, ?_, ?_⟩
  · intro w fl k s hb _
    exact busy_wait_berr hb
  · intro w fuel addr bytes s s' e h hberr
    obtain ⟨_, _, hea, _⟩ := write_err h
    rcases hea with ⟨he, _⟩ | ⟨_, hf, _⟩
    · exact he
    · rw [hf] at hberr
      cases hberr
  · intro w fuel addr bytes s s' e h hberr
    obtain ⟨m, _, _, hea, _⟩ := write_read_err h
    rcases hea with ⟨he, _⟩ | ⟨_, hf, _⟩
    · exact he
    · rw [hf] at hberr
      cases hberr
  · intro w k addr bytes s h0 hb _
    have hbw := @busy_wait_berr w .sb k (emit .cr1Start s) (by simpa [h0] using hb)
    refine ⟨emit (.pollErr .sb .bus)
      { emit .cr1Start s with sr1Count := (emit .cr1Start s).sr1Count + 1 }, ?_⟩
    simp only [write]
    rw [hbw]
    rfl
  · intro w k addr bytes s h0 hb _
    have hbw := @busy_wait_berr w .sb k (emit .cr1Start s) (by simpa [h0] using hb)
    refine ⟨emit (.pollErr .sb .bus)
      { emit .cr1Start s with sr1Count := (emit .cr1Start s).sr1Count + 1 }, ?_⟩
    simp only [write_read, write]
    rw [hbw]
    rfl

/-- Witness for C9: with both error flags raised at the first SR1 read, a
concrete `write` returns `Error::Bus`, not `Error::Arbitration`. -/
theorem c9_bus_precedence_witness :
    ∃ s', write wBoth 1 80 [16] (st0 []) = .err .bus s' :=
  c9_bus_precedence.2.2.2.1 wBoth 0 80 [16] (st0 []) rfl rfl rfl

set_option maxRecDepth 10000 in
/-- Claim C10: the address byte written to DR is `(addr * 2) % 256` in the
write phases (low bit 0; bit 7 of `addr` is discarded by the 8-bit shift,
so the byte equals `(addr % 128) * 2`) and `((addr * 2) % 256) ||| 1` in
the read phase of `write_read` (low bit 1, equal to `(addr % 128) * 2 + 1`
for any 8-bit `addr`); these are exactly the third event of a successful
`write` trace and the read-phase DR write of a successful `write_read`
trace. -/
theorem c10_address_byte :
    (∀ addr : Nat,
        (addr <<< 1) % 256 = (addr * 2) % 256 ∧
        (addr * 2) % 256 = (addr % 128) * 2 ∧
        ((addr * 2) % 256) % 2 = 0) ∧
    (∀ addr : Nat, addr < 256 →
        ((addr * 2) % 256) ||| 1 = (addr % 128) * 2 + 1 ∧
        (((addr * 2) % 256) ||| 1) % 2 = 1) ∧
    (∀ (w : World) (fuel addr : Nat) (bytes : List Nat) (s s' : St),
        write w fuel addr bytes s = .ok s' →
        ∃ rest, s'.trace = s.trace ++
          [.cr1Start, .pollOk .sb, .drWrite ((addr * 2) % 256)] ++ rest) ∧
    (∀ (w : World) (fuel addr : Nat) (bytes : List Nat) (s s' : St),
        write_read w fuel addr bytes s = .ok s' →
        ∃ pre rest, s'.trace = s.trace ++ pre ++
          [.cr1AckSet, .cr1Start, .pollOk .sb,
           .drWrite (((addr * 2) % 256) ||| 1)] ++ rest) := by
  refine ⟨?_, ?_, ?_, ?_⟩
  · intro addr
    refine ⟨?_, ?_, ?_⟩
    · rw [Nat.shiftLeft_eq, pow_one]
    · rw [show (256 : Nat) = 128 * 2 from rfl, Nat.mul_mod_mul_right]
    · rw [show (256 : Nat) = 128 * 2 from rfl, Nat.mul_mod_mul_right, Nat.mul_mod_left]
  · decide
  · intro w fuel addr bytes s s' h
    obtain ⟨_, _, ht⟩ := write_ok h
    refine ⟨[.pollOk .addr, .sr2Read] ++ txEvents bytes ++ [.pollOk .btf, .cr1Stop], ?_⟩
    rw [ht]
    simp [writeTrace, Nat.shiftLeft_eq]
  · intro w fuel addr bytes s s' h
    obtain ⟨s7, s10, hb7, hd7, ht7, h10, hT⟩ := write_read_ok_split h
    obtain ⟨m, _, _, tr, ht10⟩ := drainIf_ok_ex h10
    obtain ⟨t2, htT⟩ := readTail_ok_mono hT
    refine ⟨writeTrace addr bytes,
      [.pollOk .addr] ++ ackCfgEvents s7.buf.length ++ [.sr1Read, .sr2Read] ++ tr ++ t2,
      ?_⟩
    rw [htT, ht10, clear_addr_trace, ackCfg_trace, ht7]
    simp [readAddrEvents, Nat.shiftLeft_eq]

/-- Witness for C10: the bounded byte identity at address 0x50 and the
address byte 0xA0 in a concrete successful write trace. -/
theorem c10_address_byte_witness :
    (((80 * 2) % 256) ||| 1 = (80 % 128) * 2 + 1) ∧
      ∃ s' rest, write wGood 2 80 [16] (st0 []) = .ok s' ∧
        s'.trace = (st0 []).trace ++
          [.cr1Start, .pollOk .sb, .drWrite ((80 * 2) % 256)] ++ rest := by
  refine ⟨(c10_address_byte.2.1 80 (by decide)).1, ?_⟩
  obtain ⟨rest, ht⟩ := c10_address_byte.2.2.1 wGood 2 80 [16] (st0 []) _ rfl
  exact ⟨_, rest, rfl, ht⟩

end I2cHal
